import Mathlib

/-!
Verification development for the `gmrs` belief-propagation library.

The Rust core (`src/core/`) is generic over a `Factor` payload `F`, a
`Variable` payload `V` and a `Message` type `M`.  The embedding below mirrors
that genericity: the trait methods needed by the graph operations are bundled
in `FactorOps` / `VariableOps` records.  A Rust method that can panic is
modelled as returning `Option` (with `none` for the panic), and a Rust method
returning `Result` is modelled with `Except`.

The `senders` arrays of the Rust nodes hold raw `*mut` pointers into the
neighbours' `receivers` buffers; they are a performance device that is kept
consistent with the `var_node_indices` / `var_node_receiver_indices`
bookkeeping (see the spec, section 4.4).  The embedding omits the pointer
arrays and works with the index bookkeeping, which is the part the claims
quantify over.

Floating-point discrepancies (`f64`) in the message-passing driver are
modelled by `ℚ`: the driver only compares, maxes and stores them, and every
finite `f64` is a rational, so this part of the model is exact.  The Ising
update formulas, which use `exp`/`ln`, are modelled over `ℝ` further below.
-/

/-- Mirror of the Rust trait `Factor` (src/core/factor.rs): the two methods
used by the graph operations under verification. -/
structure FactorOps (F M : Type) where
  degree : F → ℕ
  from_message : M → F

/-- Mirror of the Rust trait `Variable` (src/core/variable.rs): the methods
used by the graph operations under verification.  `sample_to_message` returns
`Option` because the Ising implementation panics on samples other than `±1`;
`none` models the panic. -/
structure VariableOps (V M S : Type) where
  new : V
  sample_to_message : S → Option M

/-- Mirror of `FactorNode` (src/core/factor_node.rs).  The raw-pointer field
`senders` is omitted (see the module comment). -/
structure FactorNode (F M : Type) where
  factor : F
  var_node_indices : List ℕ
  var_node_receiver_indices : List ℕ
  messages : List M
  receivers : List M

/-- Mirror of `VariableNode` (src/core/variable_node.rs); the payload field is
called `variable` in Rust, which is a reserved word in Lean. -/
structure VariableNode (V M : Type) where
  payload : V
  fac_node_indices : List ℕ
  fac_node_receiver_indices : List ℕ
  messages : List M
  receivers : List M

/-- Mirror of `FactorNode::new_disconnected`. -/
def FactorNode.new_disconnected {F M : Type} (factor : F) : FactorNode F M :=
  ⟨factor, [], [], [], []⟩

/-- Mirror of `VariableNode::new_disconnected`; the Rust version obtains the
payload from `V::new()`, passed here explicitly. -/
def VariableNode.new_disconnected {V M : Type} (v : V) : VariableNode V M :=
  ⟨v, [], [], [], []⟩

/-- Mirror of `VariableNode::degree` (src/core/variable_node.rs line 46). -/
def VariableNode.degree {V M : Type} (n : VariableNode V M) : ℕ :=
  n.receivers.length

/-- Degree of a factor node: the length of its incidence/message arrays,
which `add_factor` and `freeze_variable` grow in lockstep. -/
def FactorNode.degree {F M : Type} (n : FactorNode F M) : ℕ :=
  n.receivers.length

/-- Mirror of `FGBuilderError` (src/core/factor_graph_builder.rs). -/
inductive FGBuilderError where
  | DegreeError (degree : ℕ) (vars : List ℕ)
  | OutOfRangeVariable (size : ℕ) (pos : ℕ)
deriving DecidableEq

/-- Mirror of `FGError` (src/core/factor_graph.rs).  Discrepancies are
modelled by `ℚ` (see the module comment). -/
inductive FGError where
  | MessagePassingError (iterations_number : ℕ) (last_discrepancy : ℚ)
      (discrepancy_dynamics : List ℚ)
  | SamplingError (variables_number : ℕ) (total_iterations_number : ℕ)
      (last_discrepancy : ℚ) (discrepancy_dynamics : List ℚ)
  | OutOfRangeVariable (size : ℕ) (pos : ℕ)

/-- Mirror of `MessagePassingInfo` (src/core/factor_graph.rs). -/
structure MessagePassingInfo where
  iterations_number : ℕ
  last_discrepancy : ℚ
  discrepancy_dynamics : List ℚ

/-- Mirror of `FactorGraphBuilder` (src/core/factor_graph_builder.rs); the
field holding the variable nodes is called `variables` in Rust, which is a
reserved word in Lean. -/
structure FactorGraphBuilder (F V M : Type) where
  factors : List (FactorNode F M)
  variable_nodes : List (VariableNode V M)

/-- Mirror of `FactorGraph` (src/core/factor_graph.rs); the field holding the
variable nodes is called `variables` in Rust, which is a reserved word in
Lean. -/
structure FactorGraph (F V M : Type) where
  factors : List (FactorNode F M)
  variable_nodes : List (VariableNode V M)

/-- Mirror of `FactorGraphBuilder::new`. -/
def FactorGraphBuilder.new (F V M : Type) : FactorGraphBuilder F V M :=
  ⟨[], []⟩

/-- Mirror of `FactorGraphBuilder::new_with_variables`; the second argument
only preallocates capacity in Rust and has no semantic effect. -/
def FactorGraphBuilder.new_with_variables {F V M S : Type}
    (VO : VariableOps V M S) (variables_number : ℕ) (factors_capacity : ℕ) :
    FactorGraphBuilder F V M :=
  ⟨[], List.replicate variables_number (VariableNode.new_disconnected VO.new)⟩

/-- Mirror of `FactorGraphBuilder::add_variable`. -/
def FactorGraphBuilder.add_variable {F V M S : Type}
    (VO : VariableOps V M S) (b : FactorGraphBuilder F V M) :
    FactorGraphBuilder F V M :=
  ⟨b.factors, b.variable_nodes ++ [VariableNode.new_disconnected VO.new]⟩

/-- The neighbour loop of `FactorGraphBuilder::add_factor`
(src/core/factor_graph_builder.rs lines 200-224).  The Rust loop mutates the
just-pushed last factor node through `last_mut()`; the borrow is threaded
here as the `fn0` argument and the caller re-appends the final value.  The
`FnMut` message initializer is threaded as state of type `σ`.  An
out-of-range neighbour aborts the loop mid-way, exactly as the `return Err`
in the source does, leaving the mutations of earlier iterations in place. -/
def add_factor_loop {F V M σ : Type} (factors_number : ℕ)
    (message_initializer : σ → M × σ) :
    List ℕ → FactorNode F M → List (VariableNode V M) → σ →
    Except FGBuilderError Unit × FactorNode F M × List (VariableNode V M) × σ
  | [], fn0, vars, st => (Except.ok (), fn0, vars, st)
  | index :: rest, fn0, vars, st =>
    match vars[index]? with
    | none => (Except.error (.OutOfRangeVariable vars.length index), fn0, vars, st)
    | some v =>
      let p1 := message_initializer st
      let factor_message := p1.1
      let p2 := message_initializer p1.2
      let variable_message := p2.1
      let fn1 : FactorNode F M :=
        { fn0 with
          receivers := fn0.receivers ++ [factor_message]
          messages := fn0.messages ++ [variable_message]
          var_node_indices := fn0.var_node_indices ++ [index] }
      let v1 : VariableNode V M :=
        { v with
          messages := v.messages ++ [factor_message]
          receivers := v.receivers ++ [variable_message]
          fac_node_indices := v.fac_node_indices ++ [factors_number - 1] }
      let variable_receivers_number := v1.receivers.length
      let factor_receivers_number := fn1.receivers.length
      let fn2 : FactorNode F M :=
        { fn1 with
          var_node_receiver_indices :=
            fn1.var_node_receiver_indices ++ [variable_receivers_number - 1] }
      let v2 : VariableNode V M :=
        { v1 with
          fac_node_receiver_indices :=
            v1.fac_node_receiver_indices ++ [factor_receivers_number - 1] }
      add_factor_loop factors_number message_initializer rest fn2
        (vars.set index v2) p2.2

/-- Mirror of `FactorGraphBuilder::add_factor`
(src/core/factor_graph_builder.rs lines 182-226).  Returns the Rust result
together with the mutated builder and initializer state. -/
def FactorGraphBuilder.add_factor {F V M σ : Type} (FO : FactorOps F M)
    (b : FactorGraphBuilder F V M) (factor : F) (var_indices : List ℕ)
    (message_initializer : σ → M × σ) (st : σ) :
    Except FGBuilderError Unit × FactorGraphBuilder F V M × σ :=
  let factor_deg := var_indices.length
  if FO.degree factor ≠ factor_deg then
    (Except.error (.DegreeError (FO.degree factor) var_indices), b, st)
  else
    let factor_node : FactorNode F M := FactorNode.new_disconnected factor
    let factors_number := b.factors.length + 1
    let r := add_factor_loop factors_number message_initializer var_indices
      factor_node b.variable_nodes st
    (r.1, ⟨b.factors ++ [r.2.1], r.2.2.1⟩, r.2.2.2)

/-- Mirror of `FactorGraphBuilder::build`: the Rust method only materializes
the raw-pointer `senders` arrays (omitted here) and repackages the nodes. -/
def FactorGraphBuilder.build {F V M : Type} (b : FactorGraphBuilder F V M) :
    FactorGraph F V M :=
  ⟨b.factors, b.variable_nodes⟩

/-- Mirror of `FactorGraph::get_variable_degrees`. -/
def FactorGraph.get_variable_degrees {F V M : Type} (g : FactorGraph F V M) :
    List ℕ :=
  g.variable_nodes.map VariableNode.degree

/-- Mirror of `FactorGraph::get_factor_degrees`. -/
def FactorGraph.get_factor_degrees {F V M : Type} (g : FactorGraph F V M) :
    List ℕ :=
  g.factors.map FactorNode.degree

/-- Mirror of `FactorGraph::freeze_variable` (src/core/factor_graph.rs lines
572-622).  `none` models a panic: either `sample_to_message` rejected the
sample or the clamp factor built by `from_message` reported a degree other
than 1 (the explicit `panic!` in the source).  As in the source, the new
factor node is pushed *before* the variable index is range-checked, so the
error return leaves the graph with one extra disconnected factor.  The final
pointer-fixup block of the source (re-initializing `senders` after a
reallocation) has no counterpart because pointers are not modelled. -/
def FactorGraph.freeze_variable {F V M S : Type} (FO : FactorOps F M)
    (VO : VariableOps V M S) (g : FactorGraph F V M) (value : S)
    (var_index : ℕ) :
    Option (Except FGError Unit × FactorGraph F V M) :=
  match VO.sample_to_message value with
  | none => none
  | some message =>
    let factor := FO.from_message message
    let degree := FO.degree factor
    if degree ≠ 1 then
      none
    else
      let factor_node : FactorNode F M := FactorNode.new_disconnected factor
      match g.variable_nodes[var_index]? with
      | none =>
        some (Except.error (.OutOfRangeVariable g.variable_nodes.length var_index),
          ⟨g.factors ++ [factor_node], g.variable_nodes⟩)
      | some variable_node =>
        let receivers_len := variable_node.receivers.length
        let factor_node1 : FactorNode F M :=
          { factor_node with
            receivers := factor_node.receivers ++ [message]
            messages := factor_node.messages ++ [message]
            var_node_indices := factor_node.var_node_indices ++ [var_index]
            var_node_receiver_indices :=
              factor_node.var_node_receiver_indices ++ [receivers_len] }
        let variable_node1 : VariableNode V M :=
          { variable_node with
            receivers := variable_node.receivers ++ [message]
            messages := variable_node.messages ++ [message]
            fac_node_indices :=
              variable_node.fac_node_indices ++ [g.factors.length + 1 - 1]
            fac_node_receiver_indices :=
              variable_node.fac_node_receiver_indices ++ [0] }
        some (Except.ok (),
          ⟨g.factors ++ [factor_node1],
           g.variable_nodes.set var_index variable_node1⟩)

/-- Exact value of `f64::MAX`, the initial value of `last_discrepancy` in
`run_message_passing_parallel`. -/
def f64_MAX : ℚ := 2 ^ 1024 - 2 ^ 971

/-- The iteration loop of `FactorGraph::run_message_passing_parallel`
(src/core/factor_graph.rs lines 286-326), from iteration `i` onward, with the
accumulated discrepancy history `dyn0` and current `last_discrepancy`.  The
two data-parallel map-reduce passes over the factor and the variable nodes
(race-free by slot-ownership, spec section 5) enter the iteration logic only
through the updated state and the reduced maximum discrepancy they produce;
they are abstracted as the `factors_pass` / `variables_pass` parameters. -/
def run_mp_loop {S P Q : Type} (factors_pass : P → S → S × ℚ)
    (variables_pass : Q → S → S × ℚ) (factor_scheduler : ℕ → P)
    (variable_scheduler : ℕ → Q)
    (max_iterations_number min_iterations_number : ℕ) (threshold : ℚ)
    (i : ℕ) (g : S) (last_discrepancy : ℚ) (dyn0 : List ℚ) :
    Except FGError MessagePassingInfo × S :=
  if h : i < max_iterations_number then
    let factor_parameters := factor_scheduler i
    let variable_parameters := variable_scheduler i
    let fr := factors_pass factor_parameters g
    let factors_discrepancy := fr.2
    let vr := variables_pass variable_parameters fr.1
    let variables_discrepancy := vr.2
    let max_discrepancy := max factors_discrepancy variables_discrepancy
    let dyn1 := dyn0 ++ [max_discrepancy]
    if max_discrepancy < threshold ∧ i + 1 ≥ min_iterations_number then
      (Except.ok ⟨i, max_discrepancy, dyn1⟩, vr.1)
    else
      run_mp_loop factors_pass variables_pass factor_scheduler
        variable_scheduler max_iterations_number min_iterations_number
        threshold (i + 1) vr.1 max_discrepancy dyn1
  else
    (Except.error (.MessagePassingError max_iterations_number
      last_discrepancy dyn0), g)
termination_by max_iterations_number - i
decreasing_by omega

/-- Mirror of `FactorGraph::run_message_passing_parallel`
(src/core/factor_graph.rs lines 278-327). -/
def run_message_passing_parallel {S P Q : Type} (factors_pass : P → S → S × ℚ)
    (variables_pass : Q → S → S × ℚ) (g : S)
    (max_iterations_number min_iterations_number : ℕ) (threshold : ℚ)
    (factor_scheduler : ℕ → P) (variable_scheduler : ℕ → Q) :
    Except FGError MessagePassingInfo × S :=
  run_mp_loop factors_pass variables_pass factor_scheduler variable_scheduler
    max_iterations_number min_iterations_number threshold 0 g f64_MAX []

/-- The state of the message-passing iteration before iteration `i`:
`mp_state 0` is the initial graph and iteration `i` turns `mp_state i` into
`mp_state (i + 1)` by one factor pass followed by one variable pass. -/
def mp_state {S P Q : Type} (factors_pass : P → S → S × ℚ)
    (variables_pass : Q → S → S × ℚ) (factor_scheduler : ℕ → P)
    (variable_scheduler : ℕ → Q) (g : S) : ℕ → S
  | 0 => g
  | i + 1 =>
    (variables_pass (variable_scheduler i)
      (factors_pass (factor_scheduler i)
        (mp_state factors_pass variables_pass factor_scheduler
          variable_scheduler g i)).1).1

/-- The global maximum discrepancy `Δ_i` produced by iteration `i`: the max
of the factor-side and the variable-side reduced discrepancies. -/
def mp_delta {S P Q : Type} (factors_pass : P → S → S × ℚ)
    (variables_pass : Q → S → S × ℚ) (factor_scheduler : ℕ → P)
    (variable_scheduler : ℕ → Q) (g : S) (i : ℕ) : ℚ :=
  max (factors_pass (factor_scheduler i)
        (mp_state factors_pass variables_pass factor_scheduler
          variable_scheduler g i)).2
      (variables_pass (variable_scheduler i)
        (factors_pass (factor_scheduler i)
          (mp_state factors_pass variables_pass factor_scheduler
            variable_scheduler g i)).1).2



/-- Mirror of the test doubles in src/tests/factor_graph_builder_tests.rs:
`FakeFactor(n)` is a factor whose payload is its degree `n` (so
`from_message` yields `FakeFactor(1)`), `FakeMessage` wraps a natural number,
and `FakeVariable::sample_to_message(s)` embeds the sample into a message and
never panics. -/
def FakeFactorOps : FactorOps ℕ ℕ :=
  ⟨id, fun _ => 1⟩

/-- Variable-side operations of the test doubles; see `FakeFactorOps`. -/
def FakeVariableOps : VariableOps Unit ℕ ℕ :=
  ⟨(), fun s => some s⟩

/-- A deterministic message initializer for the test scenarios. -/
def fake_initializer : Unit → ℕ × Unit :=
  fun _ => (0, ())

/-- Test-harness helper mirroring the `.unwrap()` calls of the builder test:
the graph produced by a successful `freeze_variable`, with the input graph as
a dummy fallback in the failure cases. -/
def freeze_ok {F V M S : Type} (FO : FactorOps F M) (VO : VariableOps V M S)
    (g : FactorGraph F V M) (value : S) (ix : ℕ) : FactorGraph F V M :=
  match g.freeze_variable FO VO value ix with
  | some (Except.ok (), g') => g'
  | _ => g

/-- The builder of scenario 6 of the spec (and of
`small_factor_graph_builder_logic` in the tests): 4 variables, factors of
degrees `(3, 2, 2)` with incidences `{0,1,3}`, `{1,2}`, `{3,1}`. -/
def scenario6_builder : FactorGraphBuilder ℕ Unit ℕ :=
  ((((FactorGraphBuilder.new_with_variables FakeVariableOps 4 3 :
        FactorGraphBuilder ℕ Unit ℕ).add_factor
      FakeFactorOps 3 [0, 1, 3] fake_initializer ()).2.1.add_factor
      FakeFactorOps 2 [1, 2] fake_initializer ()).2.1.add_factor
      FakeFactorOps 2 [3, 1] fake_initializer ()).2.1

/-- Scenario 6 after freezing all four variables. -/
def scenario6_graph : FactorGraph ℕ Unit ℕ :=
  freeze_ok FakeFactorOps FakeVariableOps
    (freeze_ok FakeFactorOps FakeVariableOps
      (freeze_ok FakeFactorOps FakeVariableOps
        (freeze_ok FakeFactorOps FakeVariableOps
          scenario6_builder.build 0 0) 1 1) 2 2) 3 3

/-- Builder states reachable through the public builder API, for a fixed
initializer-state type `σ`. -/
inductive BuilderReachable (σ : Type) {F V M S : Type} (FO : FactorOps F M)
    (VO : VariableOps V M S) : FactorGraphBuilder F V M → Prop where
  | new : BuilderReachable σ FO VO (FactorGraphBuilder.new F V M)
  | new_with_variables (variables_number factors_capacity : ℕ) :
      BuilderReachable σ FO VO
        (FactorGraphBuilder.new_with_variables VO variables_number
          factors_capacity)
  | add_variable (b : FactorGraphBuilder F V M) :
      BuilderReachable σ FO VO b → BuilderReachable σ FO VO (b.add_variable VO)
  | add_factor (b : FactorGraphBuilder F V M) (factor : F)
      (var_indices : List ℕ) (message_initializer : σ → M × σ) (st : σ) :
      BuilderReachable σ FO VO b →
      BuilderReachable σ FO VO
        (b.add_factor FO factor var_indices message_initializer st).2.1

/-- Graphs reachable through the public API: `build` applied to a reachable
builder, followed by any number of successful `freeze_variable` calls. -/
inductive GraphReachable (σ : Type) {F V M S : Type} (FO : FactorOps F M)
    (VO : VariableOps V M S) : FactorGraph F V M → Prop where
  | build (b : FactorGraphBuilder F V M) :
      BuilderReachable σ FO VO b → GraphReachable σ FO VO b.build
  | freeze_variable (g : FactorGraph F V M) (value : S) (var_index : ℕ)
      (g' : FactorGraph F V M) : GraphReachable σ FO VO g →
      g.freeze_variable FO VO value var_index = some (Except.ok (), g') →
      GraphReachable σ FO VO g'

/-- A one-variable builder over the test doubles, used as a concrete input
for the `add_factor` validation results. -/
def c4_builder : FactorGraphBuilder ℕ Unit ℕ :=
  FactorGraphBuilder.new_with_variables FakeVariableOps 1 0

/-- A one-variable graph over the test doubles, used as a concrete input for
the out-of-range `freeze_variable` results. -/
def c10_graph : FactorGraph ℕ Unit ℕ :=
  (FactorGraphBuilder.new_with_variables FakeVariableOps 1 0 :
    FactorGraphBuilder ℕ Unit ℕ).build

/-- Mirror of `sigmoid` (src/ising/common.rs lines 24-31), over `ℝ`. -/
noncomputable def sigmoid (x : ℝ) : ℝ :=
  if x > 0 then 1 / (1 + Real.exp (-x)) else Real.exp x / (1 + Real.exp x)

/-- Mirror of `log_sigmoid` (src/ising/common.rs lines 33-40). -/
noncomputable def log_sigmoid (x : ℝ) : ℝ :=
  if x > 0 then -Real.log (1 + Real.exp (-x))
  else x - Real.log (1 + Real.exp x)

/-- Mirror of `log_sum_exponents` (src/ising/common.rs lines 42-49). -/
noncomputable def log_sum_exponents (x y : ℝ) : ℝ :=
  if x > y then x + Real.log (1 + Real.exp (y - x))
  else y + Real.log (1 + Real.exp (x - y))

/-- Mirror of `IsingFactor` (src/ising/common.rs lines 70-85): a coupling
factor stores the four log-potentials, a unit (clamp) factor stores the
message it emits.  `IsingMessage` wraps an `f64`, modelled by `ℝ`; the
`PhantomData` marker is dropped. -/
inductive IsingFactor where
  | Coupling (log_puu log_pud log_pdu log_pdd : ℝ)
  | UnitFactor (m : ℝ)

/-- Mirror of `IsingFactor::new` (src/ising/common.rs lines 110-120). -/
noncomputable def IsingFactor.new
    (coupling first_spin_b second_spin_b : ℝ) : IsingFactor :=
  .Coupling (coupling + first_spin_b + second_spin_b)
    (-coupling + first_spin_b - second_spin_b)
    (-coupling - first_spin_b + second_spin_b)
    (coupling - first_spin_b - second_spin_b)

/-- Mirror of `IsingFactor::degree` (src/ising/common.rs lines 135-141). -/
def IsingFactor.degree : IsingFactor → ℕ
  | .Coupling _ _ _ _ => 2
  | .UnitFactor _ => 1

/-- Mirror of `IsingFactor::from_message` (src/ising/common.rs lines
130-133). -/
def IsingFactor.from_message (m : ℝ) : IsingFactor :=
  .UnitFactor m

/-- Mirror of `IsingFactor::marginal` (src/ising/common.rs lines 185-220).
The `get_unchecked` reads of the source are modelled by `[·]?` lookups, so a
`none` result models an out-of-bounds (undefined-behaviour) read; the
`ndarray` result is flattened row-major into a list.  Note that the
`UnitFactor` branch of the source reads `messages.get_unchecked(1)`. -/
noncomputable def IsingFactor.marginal :
    IsingFactor → List ℝ → Option (List ℝ)
  | .Coupling log_puu log_pud log_pdu log_pdd, messages =>
    match messages[0]?, messages[1]? with
    | some m1, some m2 =>
      let nu_up_1 := log_sigmoid m1
      let nu_up_2 := log_sigmoid m2
      let nu_down_1 := log_sigmoid (-m1)
      let nu_down_2 := log_sigmoid (-m2)
      let marginal := [Real.exp (log_puu + nu_up_1 + nu_up_2),
        Real.exp (log_pud + nu_up_1 + nu_down_2),
        Real.exp (log_pdu + nu_down_1 + nu_up_2),
        Real.exp (log_pdd + nu_down_1 + nu_down_2)]
      some (marginal.map (fun x => x / marginal.sum))
    | _, _ => none
  | .UnitFactor m, messages =>
    match messages[0]?, messages[1]? with
    | some v0, some v1 =>
      let log_pu := log_sigmoid m
      let log_pd := log_sigmoid (-m)
      let nu_up := log_sigmoid v0
      let nu_down := log_sigmoid v1
      let marginal := [Real.exp (log_pu + nu_up), Real.exp (log_pd + nu_down)]
      some (marginal.map (fun x => x / marginal.sum))
    | _, _ => none

/-- Mirror of `IsingVariable::send_messages` (src/ising/common.rs lines
281-288): `parameters` is the damping coefficient `γ`; each outgoing slot is
rebuilt from its previous value and the paired incoming message. -/
noncomputable def IsingVariable.send_messages (parameters : ℝ)
    (src dst : List ℝ) : List ℝ :=
  let sum_all : ℝ := src.sum
  (dst.zip src).map
    (fun ds => (1 - parameters) * (sum_all - ds.2) + parameters * ds.1)

/-- Mirror of `IsingVariable::sample_to_message` (src/ising/common.rs lines
302-309); `none` models the `panic!` on samples other than `±1`. -/
noncomputable def IsingVariable.sample_to_message (sample : ℤ) : Option ℝ :=
  if sample = 1 then some 1e30
  else if sample = -1 then some (-1e30)
  else none

/-- Mirror of `IsingFactorHyperParameters` (src/ising/schedulers.rs). -/
structure IsingFactorHyperParameters where
  beta : ℝ
  gamma : ℝ

/-- Mirror of `MaxProduct::factor_message_update` (src/ising/max_product.rs
lines 12-30). -/
noncomputable def MaxProduct.factor_message_update
    (message prev_message : ℝ)
    (log_p_ou_iu log_p_ou_id log_p_od_iu log_p_od_id : ℝ)
    (parameters : IsingFactorHyperParameters) : ℝ :=
  let nu_up := log_sigmoid message
  let nu_down := log_sigmoid (-message)
  let gamma := parameters.gamma
  (1 - gamma) * (max (log_p_ou_iu + nu_up) (log_p_ou_id + nu_down)
    - max (log_p_od_iu + nu_up) (log_p_od_id + nu_down))
    + gamma * prev_message

/-- Mirror of `MaxProduct::sample` (src/ising/max_product.rs lines 32-40):
the supplied random generator is ignored. -/
noncomputable def MaxProduct.sample {R : Type} (messages : List ℝ)
    (rng : R) : ℤ :=
  let sum_all : ℝ := messages.sum
  if sum_all > 0 then 1 else -1

/-- Modelled from the spec: `SumProduct::factor_message_update` implementing
the `IsingMessagePassingType` trait of src/ising/common.rs.  What is missing
from src/: the file src/ising/sum_product.rs in this snapshot holds a stale
implementation with an incompatible signature (three potential parameters
named coupling and magnetic fields, `Parameters = f64`, extra trait items),
which does not implement the trait that `IsingFactor::send_messages`
dispatches to; only the trait declaration and its caller are present.
Following the spec, section 4.7: `ν↑ = LS(m)`, `ν↓ = LS(−m)`,
`new = LSE(β·ℓ_ou_iu + ν↑, β·ℓ_ou_id + ν↓) − LSE(β·ℓ_od_iu + ν↑,
β·ℓ_od_id + ν↓)`, `outgoing = (1−γ)·new + γ·m_prev`, with `LS` and `LSE`
realized by the source's `log_sigmoid` and `log_sum_exponents`, mirroring
the structure of the `MaxProduct` implementation with `max` replaced by
`log_sum_exponents` and `β` applied to the log-potentials. -/
noncomputable def SumProduct.factor_message_update
    (message prev_message : ℝ)
    (log_p_ou_iu log_p_ou_id log_p_od_iu log_p_od_id : ℝ)
    (parameters : IsingFactorHyperParameters) : ℝ :=
  let nu_up := log_sigmoid message
  let nu_down := log_sigmoid (-message)
  let beta := parameters.beta
  let gamma := parameters.gamma
  (1 - gamma) * (log_sum_exponents (beta * log_p_ou_iu + nu_up)
      (beta * log_p_ou_id + nu_down)
    - log_sum_exponents (beta * log_p_od_iu + nu_up)
      (beta * log_p_od_id + nu_down))
    + gamma * prev_message

/-- The spec's `LSE(a, b) = max(a, b) + log(1 + exp(−|a − b|))`, written
from the claim's words for the refinement comparison. -/
noncomputable def spec_LSE (a b : ℝ) : ℝ :=
  max a b + Real.log (1 + Real.exp (-|a - b|))

/-- The spec's `LS(x) = −LSE(0, −x)`, written from the claim's words. -/
noncomputable def spec_LS (x : ℝ) : ℝ :=
  -spec_LSE 0 (-x)

/-- A trivial message pass over a unit state, used as a concrete input for
the message-passing driver: it leaves the state unchanged and reports zero
discrepancy. -/
def trivial_pass : Unit → Unit → Unit × ℚ :=
  fun _ _ => ((), 0)

/-- A trivial scheduler, used with `trivial_pass`. -/
def trivial_scheduler : ℕ → Unit :=
  fun _ => ()

/-- Indexing a list extended by one element on the right. -/
lemma get_append_singleton {α : Type} (l : List α) (a : α) (i : ℕ) :
    (l ++ [a])[i]? =
      if i < l.length then l[i]? else if i = l.length then some a else none := by
  rcases lt_trichotomy i l.length with h | h | h
  · simp [List.getElem?_append, h]
  · subst h
    simp [List.getElem?_concat_length]
  · rw [List.getElem?_eq_none (by simp; omega), if_neg (by omega), if_neg (by omega)]

/-- A successful lookup survives appending an element. -/
lemma get_append_of_get {α : Type} {l : List α} {i : ℕ} {x : α} (a : α)
    (h : l[i]? = some x) : (l ++ [a])[i]? = some x := by
  have hl : i < l.length := (List.getElem?_eq_some.mp h).1
  simp [List.getElem?_append, hl, h]

/-- Bound extracted from a successful lookup. -/
lemma lt_of_get {α : Type} {l : List α} {i : ℕ} {x : α} (h : l[i]? = some x) :
    i < l.length :=
  (List.getElem?_eq_some.mp h).1

/-- Membership extracted from a successful lookup. -/
lemma mem_of_get {α : Type} {l : List α} {i : ℕ} {x : α} (h : l[i]? = some x) :
    x ∈ l := by
  rcases List.getElem?_eq_some.mp h with ⟨hl, he⟩
  exact he ▸ List.getElem_mem hl

/-- The slot bookkeeping of a factor node is coherent: the three per-slot
arrays have one entry per adjacent variable. -/
def FactorNode.wf {F M : Type} (fn : FactorNode F M) : Prop :=
  fn.var_node_indices.length = fn.receivers.length ∧
  fn.var_node_receiver_indices.length = fn.receivers.length

/-- The slot bookkeeping of a variable node is coherent. -/
def VariableNode.wf {V M : Type} (vn : VariableNode V M) : Prop :=
  vn.fac_node_indices.length = vn.receivers.length ∧
  vn.fac_node_receiver_indices.length = vn.receivers.length

/-- Every node of the graph has coherent slot bookkeeping. -/
def graph_wf {F V M : Type} (g : FactorGraph F V M) : Prop :=
  (∀ fn ∈ g.factors, fn.wf) ∧ ∀ vn ∈ g.variable_nodes, vn.wf

/-- Factor-side half of the edge-symmetry invariant: for every factor `fi`
and every slot `k` of it, letting `v` be the recorded neighbour variable and
`j` the recorded receiver slot, variable `v` records `(fi, k)` back in its
slot `j`. -/
def factor_slots_ok {F V M : Type} (g : FactorGraph F V M) : Prop :=
  ∀ (fi : ℕ) (fn : FactorNode F M), g.factors[fi]? = some fn →
    ∀ k v, fn.var_node_indices[k]? = some v →
      ∃ (j : ℕ) (vn : VariableNode V M), fn.var_node_receiver_indices[k]? = some j ∧
        g.variable_nodes[v]? = some vn ∧
        vn.fac_node_indices[j]? = some fi ∧
        vn.fac_node_receiver_indices[j]? = some k

/-- Variable-side half of the edge-symmetry invariant, symmetric to
`factor_slots_ok`. -/
def variable_slots_ok {F V M : Type} (g : FactorGraph F V M) : Prop :=
  ∀ (vi : ℕ) (vn : VariableNode V M), g.variable_nodes[vi]? = some vn →
    ∀ j f, vn.fac_node_indices[j]? = some f →
      ∃ (k : ℕ) (fn : FactorNode F M), vn.fac_node_receiver_indices[j]? = some k ∧
        g.factors[f]? = some fn ∧
        fn.var_node_indices[k]? = some vi ∧
        fn.var_node_receiver_indices[k]? = some j

/-- The edge-symmetry invariant of the spec (section 8). -/
def edge_symmetry {F V M : Type} (g : FactorGraph F V M) : Prop :=
  factor_slots_ok g ∧ variable_slots_ok g

/-- Combined structural invariant carried through the reachability proof. -/
def graph_good {F V M : Type} (g : FactorGraph F V M) : Prop :=
  graph_wf g ∧ edge_symmetry g

/-- Appending one symmetric slot pair preserves the structural invariant.
The mutated factor is the last one (`pre.length`); it gains a slot pointing
at variable `v`'s next receiver slot `j`, and `v` gains a slot pointing back
at the factor's next receiver slot `k`.  This is the single-edge step that
both the `add_factor` neighbour loop and `freeze_variable` perform. -/
lemma push_edge_good {F V M : Type} (pre : List (FactorNode F M))
    (vars : List (VariableNode V M)) (fn : FactorNode F M)
    (vn : VariableNode V M) (v j k : ℕ) (m1 m2 m3 m4 : M)
    (hv : vars[v]? = some vn) (hj : j = vn.receivers.length)
    (hk : k = fn.receivers.length)
    (h : graph_good ⟨pre ++ [fn], vars⟩) :
    graph_good
      ⟨pre ++ [{ fn with
          receivers := fn.receivers ++ [m1]
          messages := fn.messages ++ [m2]
          var_node_indices := fn.var_node_indices ++ [v]
          var_node_receiver_indices := fn.var_node_receiver_indices ++ [j] }],
        vars.set v { vn with
          receivers := vn.receivers ++ [m3]
          messages := vn.messages ++ [m4]
          fac_node_indices := vn.fac_node_indices ++ [pre.length]
          fac_node_receiver_indices := vn.fac_node_receiver_indices ++ [k] }⟩ := by
  obtain ⟨⟨hwfF, hwfV⟩, hsymF, hsymV⟩ := h
  have hvlt : v < vars.length := lt_of_get hv
  have hfnwf : fn.wf := hwfF fn (by simp)
  have hvnwf : vn.wf := hwfV vn (mem_of_get hv)
  obtain ⟨hfn1, hfn2⟩ := hfnwf
  obtain ⟨hvn1, hvn2⟩ := hvnwf
  refine ⟨⟨?_, ?_⟩, ?_, ?_⟩
  · intro x hx
    rcases List.mem_append.mp hx with hx | hx
    · exact hwfF x (List.mem_append.mpr (Or.inl hx))
    · have hx' : x = _ := List.mem_singleton.mp hx
      subst hx'
      constructor
      · simp [hfn1]
      · simp [hfn2]
  · intro x hx
    rcases List.mem_or_eq_of_mem_set hx with hx | hx
    · exact hwfV x hx
    · subst hx
      constructor
      · simp [hvn1]
      · simp [hvn2]
  · -- factor-side edge symmetry
    unfold factor_slots_ok
    intro fi fnx hfi k0 v0 hk0
    rw [get_append_singleton] at hfi
    split at hfi
    · -- an untouched factor
      rename_i hfilt
      have hold : (pre ++ [fn])[fi]? = some fnx := by
        rw [get_append_singleton, if_pos hfilt]
        exact hfi
      obtain ⟨j0, vn0, hj0, hv0, ha, hb⟩ := hsymF fi fnx hold k0 v0 hk0
      by_cases hvv : v = v0
      · subst hvv
        have hvn0 : vn0 = vn := by
          rw [hv] at hv0
          exact (Option.some.inj hv0).symm
        subst hvn0
        refine ⟨j0, { vn0 with receivers := vn0.receivers ++ [m3], messages := vn0.messages ++ [m4], fac_node_indices := vn0.fac_node_indices ++ [pre.length], fac_node_receiver_indices := vn0.fac_node_receiver_indices ++ [k] }, hj0, ?_, ?_, ?_⟩
        · simp [List.getElem?_set, hvlt]
        · exact get_append_of_get _ ha
        · exact get_append_of_get _ hb
      · refine ⟨j0, vn0, hj0, ?_, ha, hb⟩
        simpa [List.getElem?_set, hvv] using hv0
    · split at hfi
      · -- the mutated last factor
        rename_i hfile hfieq
        have hfnx : fnx = _ := (Option.some.inj hfi).symm
        subst hfnx
        simp only at hk0
        rw [get_append_singleton] at hk0
        split at hk0
        · -- an old slot of the last factor
          rename_i hk0lt
          have hold : (pre ++ [fn])[fi]? = some fn := by
            rw [get_append_singleton, if_neg (by omega), if_pos hfieq]
          obtain ⟨j0, vn0, hj0, hv0, ha, hb⟩ := hsymF fi fn hold k0 v0 hk0
          by_cases hvv : v = v0
          · subst hvv
            have hvn0 : vn0 = vn := by
              rw [hv] at hv0
              exact (Option.some.inj hv0).symm
            subst hvn0
            refine ⟨j0, { vn0 with receivers := vn0.receivers ++ [m3], messages := vn0.messages ++ [m4], fac_node_indices := vn0.fac_node_indices ++ [pre.length], fac_node_receiver_indices := vn0.fac_node_receiver_indices ++ [k] }, by simpa using get_append_of_get j hj0, ?_, ?_, ?_⟩
            · simp [List.getElem?_set, hvlt]
            · exact get_append_of_get _ ha
            · exact get_append_of_get _ hb
          · refine ⟨j0, vn0, by simpa using get_append_of_get j hj0, ?_, ha, hb⟩
            simpa [List.getElem?_set, hvv] using hv0
        · split at hk0
          · -- the freshly pushed slot of the last factor
            rename_i hk0le hk0eq
            have hv0v : v0 = v := (Option.some.inj hk0).symm
            subst hv0v
            refine ⟨j, { vn with receivers := vn.receivers ++ [m3], messages := vn.messages ++ [m4], fac_node_indices := vn.fac_node_indices ++ [pre.length], fac_node_receiver_indices := vn.fac_node_receiver_indices ++ [k] }, ?_, ?_, ?_, ?_⟩
            · have : k0 = fn.var_node_receiver_indices.length := by
                rw [hfn2, ← hfn1]
                exact hk0eq
              rw [this]
              exact List.getElem?_concat_length _ _
            · simp [List.getElem?_set, hvlt]
            · have : j = vn.fac_node_indices.length := by rw [hvn1]; exact hj
              rw [this, List.getElem?_concat_length, hfieq]
            · have : j = vn.fac_node_receiver_indices.length := by
                rw [hvn2]
                exact hj
              rw [this, List.getElem?_concat_length]
              have : k = k0 := by rw [hk, ← hfn1]; omega
              rw [this]
          · exact absurd hk0 (by simp)
      · exact absurd hfi (by simp)
  · -- variable-side edge symmetry
    unfold variable_slots_ok
    intro vi vnx hvi j0 f0 hj0
    by_cases hvv : v = vi
    · subst hvv
      rw [List.getElem?_set, if_pos rfl, if_pos hvlt] at hvi
      have hvnx : vnx = _ := (Option.some.inj hvi).symm
      subst hvnx
      simp only at hj0
      rw [get_append_singleton] at hj0
      split at hj0
      · -- an old slot of the mutated variable
        rename_i hj0lt
        obtain ⟨k0, fn0, hk0, hf0, ha, hb⟩ := hsymV v vn hv j0 f0 hj0
        rw [get_append_singleton] at hf0
        split at hf0
        · rename_i hf0lt
          refine ⟨k0, fn0, by simpa using get_append_of_get k hk0, ?_, ha, hb⟩
          rw [get_append_singleton, if_pos hf0lt]
          exact hf0
        · split at hf0
          · rename_i hf0le hf0eq
            have hfn0 : fn0 = fn := (Option.some.inj hf0).symm
            subst hfn0
            refine ⟨k0, { fn0 with receivers := fn0.receivers ++ [m1], messages := fn0.messages ++ [m2], var_node_indices := fn0.var_node_indices ++ [v], var_node_receiver_indices := fn0.var_node_receiver_indices ++ [j] }, by simpa using get_append_of_get k hk0, ?_, ?_, ?_⟩
            · rw [get_append_singleton, if_neg (by omega), if_pos hf0eq]
            · exact get_append_of_get _ ha
            · exact get_append_of_get _ hb
          · exact absurd hf0 (by simp)
      · split at hj0
        · -- the freshly pushed slot of the mutated variable
          rename_i hj0le hj0eq
          have hf0v : f0 = pre.length := (Option.some.inj hj0).symm
          subst hf0v
          refine ⟨k, { fn with receivers := fn.receivers ++ [m1], messages := fn.messages ++ [m2], var_node_indices := fn.var_node_indices ++ [v], var_node_receiver_indices := fn.var_node_receiver_indices ++ [j] }, ?_, ?_, ?_, ?_⟩
          · have : j0 = vn.fac_node_receiver_indices.length := by
              rw [hvn2, ← hvn1]
              exact hj0eq
            rw [this]
            exact List.getElem?_concat_length _ _
          · rw [get_append_singleton, if_neg (by omega), if_pos rfl]
          · have : k = fn.var_node_indices.length := by rw [hfn1]; exact hk
            rw [this, List.getElem?_concat_length]
          · have : k = fn.var_node_receiver_indices.length := by
              rw [hfn2]
              exact hk
            rw [this, List.getElem?_concat_length]
            have : j = j0 := by rw [hj, ← hvn1]; omega
            rw [this]
        · exact absurd hj0 (by simp)
    · -- an untouched variable
      rw [List.getElem?_set, if_neg hvv] at hvi
      obtain ⟨k0, fn0, hk0, hf0, ha, hb⟩ := hsymV vi vnx hvi j0 f0 hj0
      rw [get_append_singleton] at hf0
      split at hf0
      · rename_i hf0lt
        refine ⟨k0, fn0, hk0, ?_, ha, hb⟩
        rw [get_append_singleton, if_pos hf0lt]
        exact hf0
      · split at hf0
        · rename_i hf0le hf0eq
          have hfn0 : fn0 = fn := (Option.some.inj hf0).symm
          subst hfn0
          refine ⟨k0, { fn0 with receivers := fn0.receivers ++ [m1], messages := fn0.messages ++ [m2], var_node_indices := fn0.var_node_indices ++ [v], var_node_receiver_indices := fn0.var_node_receiver_indices ++ [j] }, hk0, ?_, ?_, ?_⟩
          · rw [get_append_singleton, if_neg (by omega), if_pos hf0eq]
          · exact get_append_of_get _ ha
          · exact get_append_of_get _ hb
        · exact absurd hf0 (by simp)

/-- Appending a slotless factor node preserves the structural invariant. -/
lemma append_disconnected_good {F V M : Type} (pre : List (FactorNode F M))
    (vars : List (VariableNode V M)) (f : F)
    (h : graph_good ⟨pre, vars⟩) :
    graph_good ⟨pre ++ [FactorNode.new_disconnected f], vars⟩ := by
  obtain ⟨⟨hwfF, hwfV⟩, hsymF, hsymV⟩ := h
  refine ⟨⟨?_, hwfV⟩, ?_, ?_⟩
  · intro x hx
    rcases List.mem_append.mp hx with hx | hx
    · exact hwfF x hx
    · have hx' := List.mem_singleton.mp hx
      subst hx'
      exact ⟨rfl, rfl⟩
  · unfold factor_slots_ok
    intro fi fnx hfi k v hk
    rw [get_append_singleton] at hfi
    split at hfi
    · exact hsymF fi fnx hfi k v hk
    · split at hfi
      · have hx' : fnx = FactorNode.new_disconnected f := (Option.some.inj hfi).symm
        subst hx'
        exact absurd hk (by simp [FactorNode.new_disconnected])
      · exact absurd hfi (by simp)
  · unfold variable_slots_ok
    intro vi vnx hvi j f0 hj
    obtain ⟨k0, fn0, hk0, hf0, ha, hb⟩ := hsymV vi vnx hvi j f0 hj
    exact ⟨k0, fn0, hk0, get_append_of_get _ hf0, ha, hb⟩

/-- Appending a slotless variable node preserves the structural invariant. -/
lemma append_disconnected_variable_good {F V M : Type}
    (factors : List (FactorNode F M)) (vars : List (VariableNode V M)) (v : V)
    (h : graph_good ⟨factors, vars⟩) :
    graph_good ⟨factors, vars ++ [VariableNode.new_disconnected v]⟩ := by
  obtain ⟨⟨hwfF, hwfV⟩, hsymF, hsymV⟩ := h
  refine ⟨⟨hwfF, ?_⟩, ?_, ?_⟩
  · intro x hx
    rcases List.mem_append.mp hx with hx | hx
    · exact hwfV x hx
    · have hx' := List.mem_singleton.mp hx
      subst hx'
      exact ⟨rfl, rfl⟩
  · unfold factor_slots_ok
    intro fi fnx hfi k v0 hk
    obtain ⟨j0, vn0, hj0, hv0, ha, hb⟩ := hsymF fi fnx hfi k v0 hk
    exact ⟨j0, vn0, hj0, get_append_of_get _ hv0, ha, hb⟩
  · unfold variable_slots_ok
    intro vi vnx hvi j f0 hj
    rw [get_append_singleton] at hvi
    split at hvi
    · exact hsymV vi vnx hvi j f0 hj
    · split at hvi
      · have hx' : vnx = VariableNode.new_disconnected v := (Option.some.inj hvi).symm
        subst hx'
        exact absurd hj (by simp [VariableNode.new_disconnected])
      · exact absurd hvi (by simp)

/-- The neighbour loop of `add_factor` preserves the structural invariant,
whether it completes or aborts on an out-of-range neighbour. -/
lemma add_factor_loop_good {F V M σ : Type} (pre : List (FactorNode F M))
    (init : σ → M × σ) :
    ∀ (vs : List ℕ) (fn : FactorNode F M) (vars : List (VariableNode V M))
      (st : σ),
      graph_good ⟨pre ++ [fn], vars⟩ →
      graph_good
        ⟨pre ++ [(add_factor_loop (pre.length + 1) init vs fn vars st).2.1],
          (add_factor_loop (pre.length + 1) init vs fn vars st).2.2.1⟩ := by
  intro vs
  induction vs with
  | nil =>
    intro fn vars st h
    simpa [add_factor_loop] using h
  | cons index rest ih =>
    intro fn vars st h
    cases hidx : vars[index]? with
    | none =>
      simp only [add_factor_loop, hidx]
      exact h
    | some v =>
      simp only [add_factor_loop, hidx, List.length_append, List.length_singleton,
        Nat.add_sub_cancel]
      exact ih _ _ _
        (push_edge_good pre vars fn v index v.receivers.length
          fn.receivers.length (init st).1 (init (init st).2).1
          (init (init st).2).1 (init st).1 hidx rfl rfl h)

/-- `add_factor` preserves the structural invariant of the builder state, on
success and on failure alike. -/
lemma add_factor_good {F V M σ : Type} (FO : FactorOps F M)
    (b : FactorGraphBuilder F V M) (factor : F) (var_indices : List ℕ)
    (init : σ → M × σ) (st : σ) (h : graph_good b.build) :
    graph_good ((b.add_factor FO factor var_indices init st).2.1).build := by
  unfold FactorGraphBuilder.add_factor
  dsimp only
  split
  · exact h
  · unfold FactorGraphBuilder.build
    exact add_factor_loop_good b.factors init var_indices
      (FactorNode.new_disconnected factor) b.variable_nodes st
      (append_disconnected_good b.factors b.variable_nodes factor h)

/-- Every reachable builder state satisfies the structural invariant. -/
lemma builder_reachable_good {σ F V M S : Type} {FO : FactorOps F M}
    {VO : VariableOps V M S} {b : FactorGraphBuilder F V M}
    (h : BuilderReachable σ FO VO b) : graph_good b.build := by
  induction h with
  | new =>
    refine ⟨⟨?_, ?_⟩, ?_, ?_⟩
    · intro x hx
      exact absurd hx (by simp [FactorGraphBuilder.new, FactorGraphBuilder.build])
    · intro x hx
      exact absurd hx (by simp [FactorGraphBuilder.new, FactorGraphBuilder.build])
    · unfold factor_slots_ok
      intro fi fnx hfi k v hk
      exact absurd hfi (by simp [FactorGraphBuilder.new, FactorGraphBuilder.build])
    · unfold variable_slots_ok
      intro vi vnx hvi j f0 hj
      exact absurd hvi (by simp [FactorGraphBuilder.new, FactorGraphBuilder.build])
  | new_with_variables n cap =>
    refine ⟨⟨?_, ?_⟩, ?_, ?_⟩
    · intro x hx
      exact absurd hx
        (by simp [FactorGraphBuilder.new_with_variables, FactorGraphBuilder.build])
    · intro x hx
      have hx' : x = VariableNode.new_disconnected VO.new :=
        List.eq_of_mem_replicate hx
      subst hx'
      exact ⟨rfl, rfl⟩
    · unfold factor_slots_ok
      intro fi fnx hfi k v hk
      exact absurd hfi
        (by simp [FactorGraphBuilder.new_with_variables, FactorGraphBuilder.build])
    · unfold variable_slots_ok
      intro vi vnx hvi j f0 hj
      have hx' : vnx = VariableNode.new_disconnected VO.new :=
        List.eq_of_mem_replicate (mem_of_get hvi)
      subst hx'
      exact absurd hj (by simp [VariableNode.new_disconnected])
  | add_variable b hb ihb =>
    exact append_disconnected_variable_good b.factors b.variable_nodes VO.new ihb
  | add_factor b factor var_indices init st hb ihb =>
    exact add_factor_good FO b factor var_indices init st ihb

/-- A successful `freeze_variable` preserves the structural invariant. -/
lemma freeze_ok_good {F V M S : Type} (FO : FactorOps F M)
    (VO : VariableOps V M S) (g : FactorGraph F V M) (value : S) (ix : ℕ)
    (g' : FactorGraph F V M)
    (h : g.freeze_variable FO VO value ix = some (Except.ok (), g'))
    (hg : graph_good g) : graph_good g' := by
  unfold FactorGraph.freeze_variable at h
  cases hm : VO.sample_to_message value with
  | none =>
    rw [hm] at h
    exact absurd h (by simp)
  | some message =>
    rw [hm] at h
    dsimp only at h
    split at h
    · exact absurd h (by simp)
    · split at h
      · exact absurd h (by simp)
      · rename_i vn hvx
        have hmain := Option.some.inj h
        have hg' : g' = _ := (congrArg Prod.snd hmain).symm
        subst hg'
        have hp := push_edge_good g.factors g.variable_nodes
          (FactorNode.new_disconnected (FO.from_message message)) vn ix
          vn.receivers.length 0 message message message message hvx rfl rfl
          (append_disconnected_good g.factors g.variable_nodes
            (FO.from_message message) hg)
        simpa [FactorNode.new_disconnected, Nat.add_sub_cancel] using hp

/-- Every reachable graph satisfies the structural invariant. -/
lemma graph_reachable_good {σ F V M S : Type} {FO : FactorOps F M}
    {VO : VariableOps V M S} {g : FactorGraph F V M}
    (h : GraphReachable σ FO VO g) : graph_good g := by
  induction h with
  | build b hb => exact builder_reachable_good hb
  | freeze_variable g value ix g' hg hfz ihg =>
    exact freeze_ok_good _ _ g value ix g' hfz ihg

/-- C2: edge symmetry holds after `build()` and after every successful
`freeze_variable`: for every factor `f` and every slot `k < deg f`, with
`v = f.var_node_indices[k]` and `j = f.var_node_receiver_indices[k]`,
variable `v` records `fac_node_indices[j] = index of f` and
`fac_node_receiver_indices[j] = k`, and symmetrically for every variable and
every one of its slots. -/
theorem reachable_edge_symmetry {σ F V M S : Type} (FO : FactorOps F M)
    (VO : VariableOps V M S) (g : FactorGraph F V M)
    (h : GraphReachable σ FO VO g) : edge_symmetry g :=
  (graph_reachable_good h).2

/-- Shape of a successful `freeze_variable`: the appended clamp factor node
and the updated variable node, exactly as the source builds them. -/
lemma freeze_variable_success_form {F V M S : Type} (FO : FactorOps F M)
    (VO : VariableOps V M S) (g : FactorGraph F V M) (value : S) (msg : M)
    (ix : ℕ) (vn : VariableNode V M)
    (hmsg : VO.sample_to_message value = some msg)
    (hdeg : FO.degree (FO.from_message msg) = 1)
    (hvn : g.variable_nodes[ix]? = some vn) :
    g.freeze_variable FO VO value ix = some (Except.ok (),
      ⟨g.factors ++
          [⟨FO.from_message msg, [ix], [vn.receivers.length], [msg], [msg]⟩],
        g.variable_nodes.set ix { vn with
          receivers := vn.receivers ++ [msg]
          messages := vn.messages ++ [msg]
          fac_node_indices := vn.fac_node_indices ++ [g.factors.length]
          fac_node_receiver_indices :=
            vn.fac_node_receiver_indices ++ [0] }⟩) := by
  unfold FactorGraph.freeze_variable
  rw [hmsg]
  dsimp only
  rw [if_neg (by simp [hdeg]), hvn]
  simp [FactorNode.new_disconnected]

/-- Shape of an out-of-range `freeze_variable`: the error is returned, but a
disconnected clamp factor node has already been appended. -/
lemma freeze_variable_error_form {F V M S : Type} (FO : FactorOps F M)
    (VO : VariableOps V M S) (g : FactorGraph F V M) (value : S) (msg : M)
    (ix : ℕ) (hmsg : VO.sample_to_message value = some msg)
    (hdeg : FO.degree (FO.from_message msg) = 1)
    (hvx : g.variable_nodes[ix]? = none) :
    g.freeze_variable FO VO value ix = some
      (Except.error (FGError.OutOfRangeVariable g.variable_nodes.length ix),
        ⟨g.factors ++ [FactorNode.new_disconnected (FO.from_message msg)],
          g.variable_nodes⟩) := by
  unfold FactorGraph.freeze_variable
  rw [hmsg]
  dsimp only
  rw [if_neg (by simp [hdeg]), hvx]

/-- The exact panic conditions of `freeze_variable`: the `sample_to_message`
panic or the explicit degree check on the clamp factor. -/
lemma freeze_variable_none_iff {F V M S : Type} (FO : FactorOps F M)
    (VO : VariableOps V M S) (g : FactorGraph F V M) (value : S) (ix : ℕ) :
    g.freeze_variable FO VO value ix = none ↔
      (VO.sample_to_message value = none ∨
        ∃ m, VO.sample_to_message value = some m ∧
          FO.degree (FO.from_message m) ≠ 1) := by
  unfold FactorGraph.freeze_variable
  cases hm : VO.sample_to_message value with
  | none => simp
  | some m =>
    dsimp only
    split
    · rename_i hd
      constructor
      · intro _
        exact Or.inr ⟨m, rfl, hd⟩
      · intro _
        rfl
    · rename_i hd
      simp only [ne_eq, not_not] at hd
      cases hvx : g.variable_nodes[ix]? <;> simp [hvx, hd]

/-- C3: `freeze_variable(value, var_ix)` returns `OutOfRangeVariable` exactly
when `var_ix ≥ n_V`; on success it appends exactly one clamp factor
`from_message (sample_to_message value)` of degree 1 adjacent to
`variables[var_ix]`, so the factor count grows by one, the degree of
`variables[var_ix]` grows by one and every other degree is unchanged; and in
scenario 6 freezing all four variables yields `var_deg = (2,4,2,3)` and
`fac_deg = (3,2,2,1,1,1,1)`. -/
theorem freeze_variable_spec :
    (∀ (F V M S : Type) (FO : FactorOps F M) (VO : VariableOps V M S)
      (g : FactorGraph F V M) (value : S) (msg : M) (ix : ℕ),
      VO.sample_to_message value = some msg →
      FO.degree (FO.from_message msg) = 1 →
      ((∃ g', g.freeze_variable FO VO value ix =
          some (Except.error
            (FGError.OutOfRangeVariable g.variable_nodes.length ix), g')) ↔
        g.variable_nodes.length ≤ ix) ∧
      (ix < g.variable_nodes.length →
        ∃ g', g.freeze_variable FO VO value ix = some (Except.ok (), g') ∧
          (∃ fn : FactorNode F M, g'.factors = g.factors ++ [fn] ∧
            fn.factor = FO.from_message msg ∧ fn.var_node_indices = [ix] ∧
            fn.degree = 1) ∧
          g'.get_factor_degrees = g.get_factor_degrees ++ [1] ∧
          g'.get_variable_degrees =
            g.get_variable_degrees.set ix
              (g.get_variable_degrees.getD ix 0 + 1))) ∧
    scenario6_graph.get_variable_degrees = [2, 4, 2, 3] ∧
    scenario6_graph.get_factor_degrees = [3, 2, 2, 1, 1, 1, 1] := by
  refine ⟨?_, by decide, by decide⟩
  intro F V M S FO VO g value msg ix hmsg hdeg
  constructor
  · constructor
    · rintro ⟨g', hg'⟩
      by_contra hcon
      push_neg at hcon
      cases hq : g.variable_nodes[ix]? with
      | none =>
        rw [List.getElem?_eq_none_iff] at hq
        omega
      | some vn =>
        rw [freeze_variable_success_form FO VO g value msg ix vn hmsg hdeg hq]
          at hg'
        simp at hg'
    · intro hle
      exact ⟨_, freeze_variable_error_form FO VO g value msg ix hmsg hdeg
        (List.getElem?_eq_none hle)⟩
  · intro hlt
    cases hq : g.variable_nodes[ix]? with
    | none =>
      rw [List.getElem?_eq_none_iff] at hq
      omega
    | some vn =>
      refine ⟨_, freeze_variable_success_form FO VO g value msg ix vn hmsg hdeg hq,
        ⟨⟨FO.from_message msg, [ix], [vn.receivers.length], [msg], [msg]⟩,
          rfl, rfl, rfl, rfl⟩, ?_, ?_⟩
      · simp [FactorGraph.get_factor_degrees, FactorNode.degree]
      · unfold FactorGraph.get_variable_degrees
        rw [List.map_set]
        have hgd : (g.variable_nodes.map VariableNode.degree).getD ix 0 =
            vn.degree := by
          simp [List.getD, hq]
        rw [hgd]
        have hnd : VariableNode.degree { vn with
            receivers := vn.receivers ++ [msg]
            messages := vn.messages ++ [msg]
            fac_node_indices := vn.fac_node_indices ++ [g.factors.length]
            fac_node_receiver_indices :=
              vn.fac_node_receiver_indices ++ [0] } = vn.degree + 1 := by
          simp [VariableNode.degree]
        rw [hnd]

/-- Witness for C3: the out-of-range characterization applied to the built
scenario-6 graph at the concrete index 9. -/
theorem freeze_variable_spec_witness :
    (∃ g', scenario6_builder.build.freeze_variable FakeFactorOps
        FakeVariableOps 7 9 =
        some (Except.error (FGError.OutOfRangeVariable
          scenario6_builder.build.variable_nodes.length 9), g')) ↔
      scenario6_builder.build.variable_nodes.length ≤ 9 :=
  (freeze_variable_spec.1 ℕ Unit ℕ ℕ FakeFactorOps FakeVariableOps
    scenario6_builder.build 7 7 9 rfl rfl).1

/-- C10: calling `freeze_variable` with an out-of-range index returns the
`OutOfRangeVariable` error, but the graph has already been mutated: a
disconnected degree-0 clamp factor node was pushed before the range check, so
the factor-degree list gains a trailing `0` while every variable node and
every existing factor node is unchanged. -/
theorem freeze_variable_out_of_range_mutates :
    ∀ (F V M S : Type) (FO : FactorOps F M) (VO : VariableOps V M S)
      (g : FactorGraph F V M) (value : S) (msg : M) (ix : ℕ),
      VO.sample_to_message value = some msg →
      FO.degree (FO.from_message msg) = 1 →
      g.variable_nodes.length ≤ ix →
      ∃ g', g.freeze_variable FO VO value ix =
          some (Except.error
            (FGError.OutOfRangeVariable g.variable_nodes.length ix), g') ∧
        g'.variable_nodes = g.variable_nodes ∧
        g'.factors = g.factors ++
          [FactorNode.new_disconnected (FO.from_message msg)] ∧
        g'.get_factor_degrees = g.get_factor_degrees ++ [0] := by
  intro F V M S FO VO g value msg ix hmsg hdeg hge
  refine ⟨_, freeze_variable_error_form FO VO g value msg ix hmsg hdeg
    (List.getElem?_eq_none hge), rfl, rfl, ?_⟩
  simp [FactorGraph.get_factor_degrees, FactorNode.degree,
    FactorNode.new_disconnected]

/-- Witness for C10: freezing variable 5 of a one-variable graph fails but
appends a degree-0 factor node. -/
theorem freeze_variable_out_of_range_mutates_witness :
    ∃ g', c10_graph.freeze_variable FakeFactorOps FakeVariableOps 1 5 =
        some (Except.error
          (FGError.OutOfRangeVariable c10_graph.variable_nodes.length 5), g') ∧
      g'.variable_nodes = c10_graph.variable_nodes ∧
      g'.factors = c10_graph.factors ++
        [FactorNode.new_disconnected (FakeFactorOps.from_message 1)] ∧
      g'.get_factor_degrees = c10_graph.get_factor_degrees ++ [0] :=
  freeze_variable_out_of_range_mutates ℕ Unit ℕ ℕ FakeFactorOps
    FakeVariableOps c10_graph 1 1 5 rfl rfl (by decide)

/-- Witness for C2: the scenario-6 builder output is reachable and satisfies
edge symmetry. -/
theorem reachable_edge_symmetry_witness :
    GraphReachable Unit FakeFactorOps FakeVariableOps scenario6_builder.build ∧
    edge_symmetry scenario6_builder.build :=
  have hb0 : BuilderReachable Unit FakeFactorOps FakeVariableOps
      (FactorGraphBuilder.new_with_variables FakeVariableOps 4 3) :=
    BuilderReachable.new_with_variables 4 3
  have hb1 := BuilderReachable.add_factor _ 3 [0, 1, 3] fake_initializer () hb0
  have hb2 := BuilderReachable.add_factor _ 2 [1, 2] fake_initializer () hb1
  have hb3 := BuilderReachable.add_factor _ 2 [3, 1] fake_initializer () hb2
  have hg : GraphReachable Unit FakeFactorOps FakeVariableOps
      scenario6_builder.build := GraphReachable.build _ hb3
  ⟨hg, reachable_edge_symmetry FakeFactorOps FakeVariableOps _ hg⟩

/-- The neighbour loop of `add_factor` never changes the number of
variables (it only `set`s existing entries). -/
lemma add_factor_loop_vars_length {F V M σ : Type} (n : ℕ)
    (init : σ → M × σ) :
    ∀ (vs : List ℕ) (fn : FactorNode F M) (vars : List (VariableNode V M))
      (st : σ),
      (add_factor_loop n init vs fn vars st).2.2.1.length = vars.length := by
  intro vs
  induction vs with
  | nil =>
    intro fn vars st
    simp [add_factor_loop]
  | cons index rest ih =>
    intro fn vars st
    cases hidx : vars[index]? with
    | none => simp [add_factor_loop, hidx]
    | some v =>
      simp only [add_factor_loop, hidx]
      rw [ih]
      simp

/-- The neighbour loop fails exactly when some requested neighbour index is
out of range. -/
lemma add_factor_loop_error_iff {F V M σ : Type} (n : ℕ) (init : σ → M × σ) :
    ∀ (vs : List ℕ) (fn : FactorNode F M) (vars : List (VariableNode V M))
      (st : σ),
      (∃ e, (add_factor_loop n init vs fn vars st).1 = Except.error e) ↔
        ∃ v ∈ vs, vars.length ≤ v := by
  intro vs
  induction vs with
  | nil =>
    intro fn vars st
    simp [add_factor_loop]
  | cons index rest ih =>
    intro fn vars st
    cases hidx : vars[index]? with
    | none =>
      have hlen : vars.length ≤ index := List.getElem?_eq_none_iff.mp hidx
      simp only [add_factor_loop, hidx]
      constructor
      · intro _
        exact ⟨index, by simp, hlen⟩
      · intro _
        exact ⟨FGBuilderError.OutOfRangeVariable vars.length index, rfl⟩
    | some v =>
      have hidxlt : index < vars.length := lt_of_get hidx
      simp only [add_factor_loop, hidx]
      rw [ih]
      constructor
      · rintro ⟨v0, hv0, hlen⟩
        rw [List.length_set] at hlen
        exact ⟨v0, by simp [hv0], hlen⟩
      · rintro ⟨v0, hv0, hlen⟩
        rcases List.mem_cons.mp hv0 with h | h
        · omega
        · exact ⟨v0, h, by rw [List.length_set]; exact hlen⟩

/-- The error value produced by the neighbour loop is always an
`OutOfRangeVariable` naming the variable count and an offending index. -/
lemma add_factor_loop_error_payload {F V M σ : Type} (n : ℕ)
    (init : σ → M × σ) :
    ∀ (vs : List ℕ) (fn : FactorNode F M) (vars : List (VariableNode V M))
      (st : σ) (e : FGBuilderError),
      (add_factor_loop n init vs fn vars st).1 = Except.error e →
      ∃ v ∈ vs, vars.length ≤ v ∧
        e = FGBuilderError.OutOfRangeVariable vars.length v := by
  intro vs
  induction vs with
  | nil =>
    intro fn vars st e he
    simp [add_factor_loop] at he
  | cons index rest ih =>
    intro fn vars st e he
    cases hidx : vars[index]? with
    | none =>
      rw [add_factor_loop] at he
      simp only [hidx] at he
      have hlen : vars.length ≤ index := List.getElem?_eq_none_iff.mp hidx
      refine ⟨index, by simp, hlen, ?_⟩
      exact (Except.error.inj he).symm
    | some v =>
      rw [add_factor_loop] at he
      simp only [hidx] at he
      obtain ⟨v0, hv0, hlen, hpay⟩ := ih _ _ _ _ he
      rw [List.length_set] at hlen hpay
      exact ⟨v0, by simp [hv0], hlen, hpay⟩

/-- C4 (amended): `add_factor` returns `DegreeError` exactly on a degree
mismatch and then leaves the builder unchanged; with matching degree it
fails exactly when some neighbour index is out of range, and the error is
`OutOfRangeVariable(n_V, v)` for an offending `v` — but in that case the
builder has already been mutated: the factor node has been appended. -/
theorem add_factor_validation_spec :
    ∀ (F V M σ : Type) (FO : FactorOps F M) (b : FactorGraphBuilder F V M)
      (factor : F) (var_indices : List ℕ) (init : σ → M × σ) (st : σ),
      ((b.add_factor FO factor var_indices init st).1 =
          Except.error
            (FGBuilderError.DegreeError (FO.degree factor) var_indices) ↔
        FO.degree factor ≠ var_indices.length) ∧
      (FO.degree factor ≠ var_indices.length →
        (b.add_factor FO factor var_indices init st).2.1 = b) ∧
      (FO.degree factor = var_indices.length →
        (((∃ e, (b.add_factor FO factor var_indices init st).1 =
            Except.error e) ↔
          ∃ v ∈ var_indices, b.variable_nodes.length ≤ v) ∧
        ∀ e, (b.add_factor FO factor var_indices init st).1 =
            Except.error e →
          (∃ v ∈ var_indices, b.variable_nodes.length ≤ v ∧
            e = FGBuilderError.OutOfRangeVariable b.variable_nodes.length v) ∧
          (b.add_factor FO factor var_indices init st).2.1.factors.length =
            b.factors.length + 1)) := by
  intro F V M σ FO b factor var_indices init st
  unfold FactorGraphBuilder.add_factor
  dsimp only
  by_cases hdeg : FO.degree factor ≠ var_indices.length
  · rw [if_pos hdeg]
    refine ⟨by simp [hdeg], fun _ => rfl, fun h => absurd h hdeg⟩
  · rw [if_neg hdeg]
    push_neg at hdeg
    refine ⟨?_, fun h => absurd hdeg h, fun _ => ⟨?_, ?_⟩⟩
    · constructor
      · intro h
        obtain ⟨v0, hv0, hlen, hpay⟩ :=
          add_factor_loop_error_payload _ init var_indices
            (FactorNode.new_disconnected factor) b.variable_nodes st _ h
        exact absurd hpay (by simp)
      · intro h
        exact absurd hdeg h
    · exact add_factor_loop_error_iff _ init var_indices
        (FactorNode.new_disconnected factor) b.variable_nodes st
    · intro e he
      refine ⟨add_factor_loop_error_payload _ init var_indices
        (FactorNode.new_disconnected factor) b.variable_nodes st e he, ?_⟩
      simp

/-- C4 counterexample: with one variable, adding a degree-2 factor on
neighbours `[0, 5]` returns `OutOfRangeVariable(1, 5)`, yet the builder has
been mutated: a factor node was appended and variable 0's incidence grew. -/
theorem add_factor_error_with_mutation :
    (c4_builder.add_factor FakeFactorOps 2 [0, 5] fake_initializer ()).1 =
      Except.error (FGBuilderError.OutOfRangeVariable 1 5) ∧
    (c4_builder.add_factor FakeFactorOps 2 [0, 5]
      fake_initializer ()).2.1.factors.length =
      c4_builder.factors.length + 1 ∧
    (c4_builder.add_factor FakeFactorOps 2 [0, 5]
        fake_initializer ()).2.1.variable_nodes.map VariableNode.degree =
      [1] ∧
    c4_builder.variable_nodes.map VariableNode.degree = [0] :=
  ⟨rfl, by decide, by decide, by decide⟩

/-- Witness for C4: a degree mismatch on a concrete builder leaves it
unchanged. -/
theorem add_factor_validation_spec_witness :
    (c4_builder.add_factor FakeFactorOps 3 [0] fake_initializer ()).2.1 =
      c4_builder :=
  (add_factor_validation_spec ℕ Unit ℕ Unit FakeFactorOps c4_builder 3 [0]
    fake_initializer ()).2.1 (by decide)

/-- One unfolding step of the iteration loop, phrased through `mp_state` and
`mp_delta`. -/
lemma run_mp_loop_step {S P Q : Type} (fp : P → S → S × ℚ)
    (vp : Q → S → S × ℚ) (fs : ℕ → P) (vs : ℕ → Q) (g : S)
    (maxI minI : ℕ) (thr : ℚ) (i : ℕ) (hi : i < maxI) (L : ℚ)
    (dyn : List ℚ) :
    run_mp_loop fp vp fs vs maxI minI thr i (mp_state fp vp fs vs g i) L dyn =
      if mp_delta fp vp fs vs g i < thr ∧ i + 1 ≥ minI then
        (Except.ok ⟨i, mp_delta fp vp fs vs g i,
          dyn ++ [mp_delta fp vp fs vs g i]⟩,
          mp_state fp vp fs vs g (i + 1))
      else
        run_mp_loop fp vp fs vs maxI minI thr (i + 1)
          (mp_state fp vp fs vs g (i + 1)) (mp_delta fp vp fs vs g i)
          (dyn ++ [mp_delta fp vp fs vs g i]) := by
  rw [run_mp_loop, dif_pos hi]
  rfl

/-- From position `i`, the loop returns `Ok` at the first later iteration
`i0` that satisfies both convergence conditions. -/
lemma run_mp_loop_ok {S P Q : Type} (fp : P → S → S × ℚ)
    (vp : Q → S → S × ℚ) (fs : ℕ → P) (vs : ℕ → Q) (g : S)
    (maxI minI : ℕ) (thr : ℚ) :
    ∀ (d i : ℕ) (L : ℚ), maxI - i = d →
      ∀ i0, i ≤ i0 → i0 < maxI →
        (mp_delta fp vp fs vs g i0 < thr ∧ minI ≤ i0 + 1) →
        (∀ j, i ≤ j → j < i0 →
          ¬(mp_delta fp vp fs vs g j < thr ∧ minI ≤ j + 1)) →
        run_mp_loop fp vp fs vs maxI minI thr i (mp_state fp vp fs vs g i) L
            ((List.range i).map (mp_delta fp vp fs vs g)) =
          (Except.ok ⟨i0, mp_delta fp vp fs vs g i0,
            (List.range (i0 + 1)).map (mp_delta fp vp fs vs g)⟩,
            mp_state fp vp fs vs g (i0 + 1)) := by
  intro d
  induction d with
  | zero =>
    intro i L hd i0 hi hi0 hok hmin
    omega
  | succ d ihd =>
    intro i L hd i0 hi hi0 hok hmin
    have hilt : i < maxI := by omega
    rw [run_mp_loop_step fp vp fs vs g maxI minI thr i hilt]
    have hdyn : (List.range i).map (mp_delta fp vp fs vs g) ++
        [mp_delta fp vp fs vs g i] =
        (List.range (i + 1)).map (mp_delta fp vp fs vs g) := by
      rw [List.range_succ]
      simp
    by_cases hcase : i = i0
    · subst hcase
      rw [if_pos ⟨hok.1, hok.2⟩, hdyn]
    · have hlt : i < i0 := by omega
      have hnot : ¬(mp_delta fp vp fs vs g i < thr ∧ minI ≤ i + 1) :=
        hmin i (le_refl i) hlt
      rw [if_neg hnot, hdyn]
      exact ihd (i + 1) (mp_delta fp vp fs vs g i) (by omega) i0 (by omega)
        hi0 hok (fun j hj1 hj2 => hmin j (by omega) hj2)

/-- From position `i`, if no later iteration satisfies the convergence
conditions, the loop exhausts the budget and returns the failure record. -/
lemma run_mp_loop_err {S P Q : Type} (fp : P → S → S × ℚ)
    (vp : Q → S → S × ℚ) (fs : ℕ → P) (vs : ℕ → Q) (g : S)
    (maxI minI : ℕ) (thr : ℚ) :
    ∀ (d i : ℕ) (L : ℚ), maxI - i = d → i ≤ maxI →
      (∀ j, i ≤ j → j < maxI →
        ¬(mp_delta fp vp fs vs g j < thr ∧ minI ≤ j + 1)) →
      run_mp_loop fp vp fs vs maxI minI thr i (mp_state fp vp fs vs g i) L
          ((List.range i).map (mp_delta fp vp fs vs g)) =
        (Except.error (FGError.MessagePassingError maxI
          (if i = maxI then L else mp_delta fp vp fs vs g (maxI - 1))
          ((List.range maxI).map (mp_delta fp vp fs vs g))),
          mp_state fp vp fs vs g maxI) := by
  intro d
  induction d with
  | zero =>
    intro i L hd hle hmin
    have hieq : i = maxI := by omega
    subst hieq
    rw [run_mp_loop, dif_neg (by omega), if_pos rfl]
  | succ d ihd =>
    intro i L hd hle hmin
    have hilt : i < maxI := by omega
    rw [run_mp_loop_step fp vp fs vs g maxI minI thr i hilt]
    have hdyn : (List.range i).map (mp_delta fp vp fs vs g) ++
        [mp_delta fp vp fs vs g i] =
        (List.range (i + 1)).map (mp_delta fp vp fs vs g) := by
      rw [List.range_succ]
      simp
    rw [if_neg (hmin i (le_refl i) hilt), hdyn]
    rw [ihd (i + 1) (mp_delta fp vp fs vs g i) (by omega) (by omega)
      (fun j hj1 hj2 => hmin j (by omega) hj2)]
    rw [if_neg (show ¬i = maxI by omega)]
    by_cases hend : i + 1 = maxI
    · rw [if_pos hend]
      have hieq : i = maxI - 1 := by omega
      rw [hieq]
    · rw [if_neg hend]

/-- C1: `run_message_passing_parallel` returns `Ok` at the first iteration
`i` (0-based) with `Δ_i < threshold` and `i + 1 ≥ min_iterations_number`,
carrying `iterations_number = i`, `last_discrepancy = Δ_i` and
`discrepancy_dynamics = [Δ_0 .. Δ_i]`; if no iteration below
`max_iterations_number` satisfies both conditions it returns
`MessagePassingError` with `iterations_number = max_iterations_number`,
`last_discrepancy = Δ_{max-1}` and the full history. -/
theorem run_message_passing_parallel_spec :
    ∀ (S P Q : Type) (factors_pass : P → S → S × ℚ)
      (variables_pass : Q → S → S × ℚ) (g : S)
      (max_iterations_number min_iterations_number : ℕ) (threshold : ℚ)
      (factor_scheduler : ℕ → P) (variable_scheduler : ℕ → Q),
      (∀ i0, i0 < max_iterations_number →
        (mp_delta factors_pass variables_pass factor_scheduler
            variable_scheduler g i0 < threshold ∧
          min_iterations_number ≤ i0 + 1) →
        (∀ j, j < i0 →
          ¬(mp_delta factors_pass variables_pass factor_scheduler
              variable_scheduler g j < threshold ∧
            min_iterations_number ≤ j + 1)) →
        run_message_passing_parallel factors_pass variables_pass g
            max_iterations_number min_iterations_number threshold
            factor_scheduler variable_scheduler =
          (Except.ok ⟨i0, mp_delta factors_pass variables_pass
              factor_scheduler variable_scheduler g i0,
            (List.range (i0 + 1)).map (mp_delta factors_pass variables_pass
              factor_scheduler variable_scheduler g)⟩,
            mp_state factors_pass variables_pass factor_scheduler
              variable_scheduler g (i0 + 1))) ∧
      ((∀ j, j < max_iterations_number →
        ¬(mp_delta factors_pass variables_pass factor_scheduler
            variable_scheduler g j < threshold ∧
          min_iterations_number ≤ j + 1)) →
        0 < max_iterations_number →
        run_message_passing_parallel factors_pass variables_pass g
            max_iterations_number min_iterations_number threshold
            factor_scheduler variable_scheduler =
          (Except.error (FGError.MessagePassingError max_iterations_number
            (mp_delta factors_pass variables_pass factor_scheduler
              variable_scheduler g (max_iterations_number - 1))
            ((List.range max_iterations_number).map
              (mp_delta factors_pass variables_pass factor_scheduler
                variable_scheduler g))),
            mp_state factors_pass variables_pass factor_scheduler
              variable_scheduler g max_iterations_number)) := by
  intro S P Q fp vp g maxI minI thr fs vs
  constructor
  · intro i0 hi0 hok hmin
    unfold run_message_passing_parallel
    have h := run_mp_loop_ok fp vp fs vs g maxI minI thr maxI 0 f64_MAX
      (by omega) i0 (Nat.zero_le i0) hi0 hok
      (fun j _ hj2 => hmin j hj2)
    simpa [mp_state] using h
  · intro hmin hpos
    unfold run_message_passing_parallel
    have h := run_mp_loop_err fp vp fs vs g maxI minI thr maxI 0 f64_MAX
      (by omega) (Nat.zero_le maxI) (fun j _ hj2 => hmin j hj2)
    rw [if_neg (by omega)] at h
    simpa [mp_state] using h

/-- The source's `log_sum_exponents` computes the spec's `LSE`. -/
lemma log_sum_exponents_eq_spec_LSE (x y : ℝ) :
    log_sum_exponents x y = spec_LSE x y := by
  unfold log_sum_exponents spec_LSE
  by_cases h : x > y
  · rw [if_pos h, max_eq_left (le_of_lt h), abs_of_pos (by linarith)]
    ring_nf
  · rw [if_neg h]
    push_neg at h
    rw [max_eq_right h, abs_of_nonpos (by linarith)]
    ring_nf

/-- The source's `log_sigmoid` computes the spec's `LS`. -/
lemma log_sigmoid_eq_spec_LS (x : ℝ) : log_sigmoid x = spec_LS x := by
  unfold log_sigmoid spec_LS spec_LSE
  by_cases h : x > 0
  · rw [if_pos h, max_eq_left (by linarith),
      show |(0 : ℝ) - -x| = x from by
        rw [show (0 : ℝ) - -x = x from by ring]
        exact abs_of_pos h]
    ring
  · rw [if_neg h]
    push_neg at h
    rw [max_eq_right (by linarith),
      show |(0 : ℝ) - -x| = -x from by
        rw [show (0 : ℝ) - -x = x from by ring]
        exact abs_of_nonpos h]
    ring_nf

/-- C5: for every Ising coupling factor with log-potentials `ℓ`, input
message `m`, previous outgoing `m_prev` and hyper-parameters `β`, `γ`, the
SumProduct factor update emits
`(1−γ)·(LSE(β·ℓ_ou_iu + LS m, β·ℓ_ou_id + LS (−m)) − LSE(β·ℓ_od_iu + LS m,
β·ℓ_od_id + LS (−m))) + γ·m_prev` with `LSE(a,b) = max(a,b) +
log(1 + exp(−|a−b|))` and `LS(x) = −LSE(0, −x)`. -/
theorem sum_product_factor_message_update_spec :
    ∀ (m m_prev l_ou_iu l_ou_id l_od_iu l_od_id beta gamma : ℝ),
      SumProduct.factor_message_update m m_prev l_ou_iu l_ou_id l_od_iu
          l_od_id ⟨beta, gamma⟩ =
        (1 - gamma) * (spec_LSE (beta * l_ou_iu + spec_LS m)
            (beta * l_ou_id + spec_LS (-m))
          - spec_LSE (beta * l_od_iu + spec_LS m)
            (beta * l_od_id + spec_LS (-m))) + gamma * m_prev := by
  intro m m_prev a b c d beta gamma
  unfold SumProduct.factor_message_update
  dsimp only
  simp only [log_sum_exponents_eq_spec_LSE, log_sigmoid_eq_spec_LS]

/-- Helper: indexing the elementwise map of a zip. -/
lemma zip_map_get {α β γ : Type} (f : α × β → γ) (d1 : α) (d2 : β) :
    ∀ (l1 : List α) (l2 : List β) (k : ℕ), k < l1.length → k < l2.length →
      ((l1.zip l2).map f)[k]? = some (f (l1.getD k d1, l2.getD k d2)) := by
  intro l1
  induction l1 with
  | nil =>
    intro l2 k h1 h2
    simp at h1
  | cons a t ih =>
    intro l2 k h1 h2
    cases l2 with
    | nil => simp at h2
    | cons b t2 =>
      cases k with
      | zero => simp
      | succ k' =>
        simp only [List.zip_cons_cons, List.map_cons, List.getElem?_cons_succ,
          List.getD_cons_succ]
        exact ih t2 k' (by simpa using h1) (by simpa using h2)

/-- C6: the Ising variable update sets, for every slot `k`,
`outgoing[k] = (1−γ)·(Σ_j incoming[j] − incoming[k]) + γ·outgoing[k]`, and
with `γ = 0` it is exactly the leave-one-out sum. -/
theorem ising_variable_send_messages_spec :
    ∀ (gamma : ℝ) (src dst : List ℝ) (k : ℕ),
      k < src.length → k < dst.length →
      (IsingVariable.send_messages gamma src dst)[k]? =
        some ((1 - gamma) * (src.sum - src.getD k 0) + gamma * dst.getD k 0) ∧
      (IsingVariable.send_messages 0 src dst)[k]? =
        some (src.sum - src.getD k 0) := by
  intro gamma src dst k h1 h2
  constructor
  · unfold IsingVariable.send_messages
    exact zip_map_get _ 0 0 dst src k h2 h1
  · unfold IsingVariable.send_messages
    rw [zip_map_get _ 0 0 dst src k h2 h1]
    norm_num

/-- Witness for C6: the update evaluated at `γ = 2`, `incoming = [1, 2]`,
`outgoing = [3, 4]`, slot 1. -/
theorem ising_variable_send_messages_spec_witness :
    (IsingVariable.send_messages 2 [1, 2] [3, 4])[1]? =
      some ((1 - 2) * (([1, 2] : List ℝ).sum - ([1, 2] : List ℝ).getD 1 0) +
        2 * ([3, 4] : List ℝ).getD 1 0) :=
  (ising_variable_send_messages_spec 2 [1, 2] [3, 4] 1 (by norm_num)
    (by norm_num)).1

/-- C9: the MaxProduct variable sample equals the sign of the sum of the
incoming messages — `+1` when the sum is strictly positive, `−1` otherwise
(so a tie yields `−1`) — independently of the supplied random generator. -/
theorem max_product_sample_spec :
    ∀ (R R' : Type) (messages : List ℝ) (rng : R) (rng' : R'),
      (0 < messages.sum → MaxProduct.sample messages rng = 1) ∧
      (messages.sum ≤ 0 → MaxProduct.sample messages rng = -1) ∧
      MaxProduct.sample messages rng = MaxProduct.sample messages rng' := by
  intro R R' messages rng rng'
  unfold MaxProduct.sample
  dsimp only
  exact ⟨fun h => if_pos h, fun h => if_neg (not_lt.mpr h), rfl⟩

/-- Witness for C9: a strictly positive sum yields `+1`. -/
theorem max_product_sample_spec_witness :
    MaxProduct.sample [(1 : ℝ)] () = 1 :=
  (max_product_sample_spec Unit Unit [1] () ()).1 (by simp)

/-- C8: evaluating the clamp-factor marginal on an incoming array of the
factor's degree (length 1): the source reads `messages.get_unchecked(1)`,
one past the end of the array, modelled as the `none` (undefined-behaviour)
result. -/
theorem ising_unit_factor_marginal_out_of_bounds :
    IsingFactor.marginal (IsingFactor.UnitFactor 0) [0] = none := rfl

/-- C7 counterexample: `sample_to_message` panics (modelled as `none`) on
the sample `0`, an input other than the clamp-degree condition. -/
theorem ising_sample_to_message_zero_panics :
    IsingVariable.sample_to_message 0 = none := rfl

/-- C7 (amended): failures surface synchronously as result values, and the
in-core panic conditions are exactly two: the degree check on the clamp
factor inside `freeze_variable`, and `sample_to_message` applied to a sample
other than `±1`.  Ising `sample_to_message` succeeds exactly on `±1`, and
`freeze_variable` panics exactly when `sample_to_message` panics on the
value or the clamp factor built by `from_message` has degree other than
1. -/
theorem core_panic_conditions :
    (∀ s : ℤ, (IsingVariable.sample_to_message s).isSome ↔
      (s = 1 ∨ s = -1)) ∧
    (∀ (F V M S : Type) (FO : FactorOps F M) (VO : VariableOps V M S)
      (g : FactorGraph F V M) (value : S) (ix : ℕ),
      g.freeze_variable FO VO value ix = none ↔
        (VO.sample_to_message value = none ∨
          ∃ m, VO.sample_to_message value = some m ∧
            FO.degree (FO.from_message m) ≠ 1)) := by
  constructor
  · intro s
    unfold IsingVariable.sample_to_message
    by_cases h1 : s = 1
    · simp [h1]
    · by_cases h2 : s = -1
      · simp [h1, h2]
      · simp [h1, h2]
  · intro F V M S FO VO g value ix
    exact freeze_variable_none_iff FO VO g value ix

/-- Witness for C1: with zero discrepancy, threshold 1 and no minimum, the
driver converges at iteration 0 with history `[Δ_0]`. -/
theorem run_message_passing_parallel_spec_witness :
    run_message_passing_parallel trivial_pass trivial_pass () 1 0 1
        trivial_scheduler trivial_scheduler =
      (Except.ok ⟨0, mp_delta trivial_pass trivial_pass trivial_scheduler
          trivial_scheduler () 0,
        (List.range (0 + 1)).map (mp_delta trivial_pass trivial_pass
          trivial_scheduler trivial_scheduler ())⟩,
        mp_state trivial_pass trivial_pass trivial_scheduler
          trivial_scheduler () (0 + 1)) :=
  (run_message_passing_parallel_spec Unit Unit Unit trivial_pass trivial_pass
    () 1 0 1 trivial_scheduler trivial_scheduler).1 0 (by norm_num)
    ⟨by norm_num [mp_delta, mp_state, trivial_pass], by norm_num⟩
    (fun j hj => absurd hj (Nat.not_lt_zero j))
